import Mathlib

set_option maxRecDepth 100000

/-!
Verification of the media-recognition fingerprinting and matching pipeline.

The definitions below are a shallow embedding of the Python sources:
  * `src/fingerprint.py` — `AudioFingerprinter.find_peaks` / `generate_hashes` /
    `fingerprint_file`;
  * `src/database.py`   — `FingerprintDatabase.add_media` / `add_fingerprints`;
  * `src/matcher.py`    — `AudioMatcher.match_clip` / `_score_matches`;
  * `src/build_database.py` — the per-file ingestion step of `build_database`.

Spectrogram magnitudes (numpy float arrays in the source) are modelled as
rationals; frame indices and time offsets as integers.  SHA-1 is used by the
source only as an opaque deterministic keying function, so the hasher is
parametrised over the digest function `H : String → String` applied to the
exact pre-image string `"{f1}|{f2}|{dt}"` that the source feeds to
`hashlib.sha1`; every property proved here is uniform in `H`.
-/

/-! ## Peak extractor (`AudioFingerprinter.find_peaks`)

The source builds the footprint with
`iterate_structure(generate_binary_structure(2, 1), 20)`: iterating the
4-connected cross 20 times yields the L1 ball (diamond) of radius 20.
`maximum_filter(spectrogram, footprint)` uses scipy's default boundary mode
`'reflect'` (half-sample symmetric extension), while the second filter run on
the zero mask passes `mode='constant'` with `cval=0.0` (False outside the
array). -/

/-- Time offsets `dt` belonging to row `df` of the diamond structuring
element of radius `r`: those with `|df| + |dt| ≤ r`. -/
def rowOffsets (r : Nat) (df : Int) : List Int :=
  (List.range (2 * r + 1)).filterMap (fun b =>
    let dt : Int := (b : Int) - (r : Int)
    if df.natAbs + dt.natAbs ≤ r then some dt else none)

/-- Offsets `(df, dt)` of the diamond structuring element of radius `r`:
`|df| + |dt| ≤ r`. -/
def diamondOffsets (r : Nat) : List (Int × Int) :=
  (List.range (2 * r + 1)).flatMap (fun a =>
    (rowOffsets r ((a : Int) - (r : Int))).map (fun dt => ((a : Int) - (r : Int), dt)))

/-- scipy boundary mode `'reflect'` (`(d c b a | a b c d | d c b a)`):
an arbitrary integer index is folded into `[0, n)` with period `2n`. -/
def reflectIdx (n : Nat) (i : Int) : Nat :=
  if n = 0 then 0
  else
    let m := (i.emod (2 * (n : Int))).toNat
    if m < n then m else 2 * n - 1 - m

/-- A magnitude spectrogram: rows are frequency bins, columns are time
frames (the orientation of `np.abs(librosa.stft(...))`). -/
abbrev Spectrogram := List (List ℚ)

/-- Number of frequency bins (rows). -/
def nFreqs (M : Spectrogram) : Nat := M.length

/-- Number of time frames (columns). -/
def nFrames (M : Spectrogram) : Nat := (M.headD []).length

/-- In-bounds cell access `M[f][t]`. -/
def cell (M : Spectrogram) (f t : Nat) : ℚ := (M.getD f []).getD t 0

/-- Cell access with scipy `'reflect'` boundary handling on both axes. -/
def cellReflect (M : Spectrogram) (f t : Int) : ℚ :=
  cell M (reflectIdx (nFreqs M) f) (reflectIdx (nFrames M) t)

/-- Maximum of a list of rationals (the lists fed to it are nonempty:
the footprint always contains its centre). -/
def listMaxQ (l : List ℚ) : ℚ := l.foldr max (l.headD 0)

/-- `maximum_filter(spectrogram, footprint=neighborhood)` evaluated at
`(f, t)`, with the source's default `mode='reflect'`: the maximum of the
spectrogram over the diamond footprint of radius 20 centred at `(f, t)`.
The maximum is computed row by row of the footprint (the row-wise maximum
of row maxima equals the maximum over the whole footprint) so that concrete
instances evaluate within the kernel's stack. -/
def maxFilterReflect (M : Spectrogram) (f t : Nat) : ℚ :=
  listMaxQ ((List.range (2 * 20 + 1)).map (fun a =>
    let df : Int := (a : Int) - 20
    listMaxQ ((rowOffsets 20 df).map (fun dt =>
      cellReflect M ((f : Int) + df) ((t : Int) + dt)))))

/-- `local_max = maximum_filter(spectrogram, footprint=neighborhood) == spectrogram`. -/
def localMax (M : Spectrogram) (f t : Nat) : Bool :=
  decide (maxFilterReflect M f t = cell M f t)

/-- `eroded_background = maximum_filter(background, footprint=neighborhood,
mode='constant')` where `background = (spectrogram == 0)`: true iff some
in-bounds cell of the footprint is exactly zero (outside cells contribute
the constant `cval=0.0`, i.e. False). -/
def erodedBackground (M : Spectrogram) (f t : Nat) : Bool :=
  (diamondOffsets 20).any (fun o =>
    let f' : Int := (f : Int) + o.1
    let t' : Int := (t : Int) + o.2
    decide (0 ≤ f') && decide (f' < (nFreqs M : Int)) &&
    decide (0 ≤ t') && decide (t' < (nFrames M : Int)) &&
    decide (cell M f'.toNat t'.toNat = 0))

/-- `detected_peaks = local_max != eroded_background` (element-wise XOR). -/
def detected (M : Spectrogram) (f t : Nat) : Bool :=
  localMax M f t != erodedBackground M f t

/-- All cells of an `F × T` grid in row-major (C) order, the order in which
`np.where` reports coordinates and boolean indexing reports values. -/
def rowMajorCells (F T : Nat) : List (Nat × Nat) :=
  (List.range F).flatMap (fun f => (List.range T).map (fun t => (f, t)))

/-- `min_amplitude = 10` (`AudioFingerprinter.__init__`). -/
def minAmplitude : ℚ := 10

/-- `find_peaks`, staged as in the source: collect the coordinates of the
detected mask in row-major order (`np.where`), read off their amplitudes
(boolean indexing, same order), then keep the coordinates whose amplitude
exceeds `min_amplitude` (`peaks[amps > self.min_amplitude]`). -/
def findPeaks (M : Spectrogram) : List (Nat × Nat) :=
  let coords := (rowMajorCells (nFreqs M) (nFrames M)).filter
    (fun c => detected M c.1 c.2)
  let amps := coords.map (fun c => cell M c.1 c.2)
  ((coords.zip amps).filter (fun ca => decide (minAmplitude < ca.2))).map (·.1)

/-- Single-pass description of `find_peaks` (used by the amended form of the
peak-extraction claim): a cell is reported iff its amplitude exceeds the
floor and exactly one of (a) it equals the maximum of the reflected diamond
footprint, (b) some in-bounds footprint cell is exactly zero. -/
def findPeaksXorDescription (M : Spectrogram) : List (Nat × Nat) :=
  (rowMajorCells (nFreqs M) (nFrames M)).filter
    (fun c => detected M c.1 c.2 && decide (minAmplitude < cell M c.1 c.2))

/-- The peak-extraction rule as the specification words it: a cell is a peak
iff it is the local maximum of the footprint, its amplitude exceeds the
floor, and it is *not* matched by the maximum-filter run over the is-zero
mask. -/
def findPeaksSpecDescription (M : Spectrogram) : List (Nat × Nat) :=
  (rowMajorCells (nFreqs M) (nFrames M)).filter
    (fun c => localMax M c.1 c.2 && decide (minAmplitude < cell M c.1 c.2) &&
      !erodedBackground M c.1 c.2)

/-! ## Hasher (`AudioFingerprinter.generate_hashes`)

`generate_hashes` first sorts the peak array by time
(`peaks[peaks[:, 1].argsort()]`; `np.argsort`'s default quicksort is
deterministic but unstable, so the relative order of peaks sharing a frame
index is unspecified — we fix a stable sort; none of the properties proved
below depends on the order within a tied frame).  It then pairs each anchor
`peaks[i]` with `peaks[j]` for `j in range(i + 1, min(i + fan_value,
len(peaks)))`, breaking out of the inner loop as soon as
`time2 - time1 > time_window`, and appends
`(sha1("{freq1}|{freq2}|{time_delta}").hexdigest(), time1)`. -/

/-- `fan_value = 5` (`AudioFingerprinter.__init__`). -/
def fanValue : Nat := 5

/-- `time_window = 200` frames (`AudioFingerprinter.__init__`). -/
def timeWindow : Int := 200

/-- Insert a peak into a time-sorted list, after any peak with a strictly
smaller or equal time (stable ascending insertion). -/
def insertByTime (x : Int × Int) : List (Int × Int) → List (Int × Int)
  | [] => [x]
  | y :: ys => if x.2 ≤ y.2 then x :: y :: ys else y :: insertByTime x ys

/-- `peaks = peaks[peaks[:, 1].argsort()]`: sort the peaks by ascending
time (second component). -/
def sortByTime (ps : List (Int × Int)) : List (Int × Int) :=
  ps.foldr insertByTime []

/-- The anchor/target pairing loop of `generate_hashes`, parametrised by
the list of candidate target indices used for anchor `i` of an `n`-element
sorted peak list.  For each anchor the candidate targets are traversed in
order and emission stops at the first target with
`time2 - time1 > time_window` (the `break`). -/
def pairsWithTargets (tgts : Nat → Nat → List Nat) (ps : List (Int × Int)) :
    List ((Int × Int) × (Int × Int)) :=
  let sorted := sortByTime ps
  let n := sorted.length
  (List.range n).flatMap (fun i =>
    let a := sorted.getD i (0, 0)
    (((tgts n i).map (fun j => sorted.getD j (0, 0))).takeWhile
      (fun p => decide (p.2 - a.2 ≤ timeWindow))).map (fun p => (a, p)))

/-- The source's target indices for anchor `i`:
`range(i + 1, min(i + fan_value, len(peaks)))`. -/
def codeTargets (n i : Nat) : List Nat :=
  List.range' (i + 1) (min (i + fanValue) n - (i + 1))

/-- The `(anchor, target)` peak pairs emitted by `generate_hashes`, in
emission order. -/
def anchorPairs (ps : List (Int × Int)) : List ((Int × Int) × (Int × Int)) :=
  pairsWithTargets codeTargets ps

/-- The pre-image string `"{freq1}|{freq2}|{time_delta}"` fed to
`hashlib.sha1`. -/
def hashString (f1 f2 dt : Int) : String :=
  toString f1 ++ "|" ++ toString f2 ++ "|" ++ toString dt

/-- `generate_hashes`, parametrised by the digest function `H` (the source
applies SHA-1 and keeps the hex digest; it is a fixed deterministic
function of `hashString`'s value, and every claim proved here is uniform
in `H`).  Each emitted posting is `(H("{f1}|{f2}|{Δt}"), t1)`. -/
def generateHashes (H : String → String) (ps : List (Int × Int)) :
    List (String × Int) :=
  (anchorPairs ps).map (fun ap =>
    (H (hashString ap.1.1 ap.2.1 (ap.2.2 - ap.1.2)), ap.1.2))

/-- Target indices as the claim words them: `j ∈ (i, i + fan_value]`,
clipped to the end of the list. -/
def claimTargets (n i : Nat) : List Nat :=
  (List.range n).filter (fun j => decide (i < j) && decide (j ≤ i + fanValue))

/-- The hasher as the claim describes it: up to `fan_value = 5` targets per
anchor, `j ∈ (i, i + fan_value]`. -/
def claimHashes (H : String → String) (ps : List (Int × Int)) :
    List (String × Int) :=
  (pairsWithTargets claimTargets ps).map (fun ap =>
    (H (hashString ap.1.1 ap.2.1 (ap.2.2 - ap.1.2)), ap.1.2))

/-- Target indices as the amended claim words them: `j ∈ (i, i + fan_value)`,
i.e. up to `fan_value - 1 = 4` targets per anchor, clipped to the end of
the list. -/
def amendedTargets (n i : Nat) : List Nat :=
  (List.range n).filter (fun j => decide (i < j) && decide (j < i + fanValue))

/-- The hasher as the amended claim describes it. -/
def amendedHashes (H : String → String) (ps : List (Int × Int)) :
    List (String × Int) :=
  (pairsWithTargets amendedTargets ps).map (fun ap =>
    (H (hashString ap.1.1 ap.2.1 (ap.2.2 - ap.1.2)), ap.1.2))

/-- Six peaks at distinct consecutive times. -/
def sixPeaks : List (Int × Int) :=
  [(0, 0), (1, 1), (2, 2), (3, 3), (4, 4), (5, 5)]

/-! ## Catalogue store (`FingerprintDatabase`) and ingestion
(`build_database`)

The SQLite store has a `media` table (`id` autoincrementing from 1,
`file_path` UNIQUE) and a `fingerprints` table `(hash, time_offset,
media_id)`.  The `created_at` timestamp and the fingerprint rows' own
autoincrement ids are not referenced by any claim and are omitted.  A failed
`INSERT` (UNIQUE violation) does not advance the autoincrement counter. -/

/-- A row of the `media` table. -/
structure MediaRow where
  id : Nat
  title : String
  mtype : String
  season : Option Nat
  episode : Option Nat
  filePath : String
  fingerprintCount : Nat
deriving DecidableEq

/-- The persistent state: `media` rows, `fingerprints` rows
`(hash, time_offset, media_id)` in insertion order, and the next
autoincrement id for `media`. -/
structure DB where
  media : List MediaRow
  fingerprints : List (String × Int × Nat)
  nextId : Nat
deriving DecidableEq

/-- The empty catalogue (`media` autoincrement starts at 1). -/
def dbEmpty : DB := { media := [], fingerprints := [], nextId := 1 }

/-- `FingerprintDatabase.add_media`: try to insert the row; on the UNIQUE
violation of `file_path` (`sqlite3.IntegrityError`), look up and return the
existing row's id, leaving the state untouched. -/
def addMedia (db : DB) (title mtype : String) (filePath : String)
    (season episode : Option Nat) : Nat × DB :=
  match db.media.find? (fun r => r.filePath == filePath) with
  | some r => (r.id, db)
  | none =>
      (db.nextId,
        { db with
            media := db.media ++ [{ id := db.nextId, title := title,
                                    mtype := mtype, season := season,
                                    episode := episode, filePath := filePath,
                                    fingerprintCount := 0 }],
            nextId := db.nextId + 1 })

/-- `FingerprintDatabase.add_fingerprints`: batch-insert the postings for
`mediaId` and overwrite that row's `fingerprint_count` with the size of
this batch (`SET fingerprint_count = len(fingerprints)`). -/
def addFingerprints (db : DB) (mediaId : Nat) (fps : List (String × Int)) :
    DB :=
  { db with
      fingerprints := db.fingerprints ++ fps.map (fun q => (q.1, q.2, mediaId)),
      media := db.media.map (fun r =>
        if r.id = mediaId then { r with fingerprintCount := fps.length } else r) }

/-- The per-file ingestion step of `build_database`: after fingerprinting
the file to `fps`, call `add_media` and then — unconditionally — call
`add_fingerprints` on the returned id. -/
def ingest (db : DB) (title mtype : String) (filePath : String)
    (season episode : Option Nat) (fps : List (String × Int)) : Nat × DB :=
  let idDb := addMedia db title mtype filePath season episode
  (idDb.1, addFingerprints idDb.2 idDb.1 fps)

/-- Number of rows of the `fingerprints` table carrying `mediaId`. -/
def postingRows (db : DB) (mediaId : Nat) : Nat :=
  (db.fingerprints.filter (fun q => q.2.2 == mediaId)).length

/-- The invariant of the claim: every work's cached `fingerprint_count`
equals its number of rows in the `fingerprints` table. -/
def countInvariant (db : DB) : Prop :=
  ∀ r ∈ db.media, r.fingerprintCount = postingRows db r.id

/-- Structural well-formedness maintained by the store: media ids are below
the autoincrement counter, and every posting references an existing media
row. -/
def wellFormed (db : DB) : Prop :=
  (∀ r ∈ db.media, r.id < db.nextId) ∧
  (∀ q ∈ db.fingerprints, ∃ r ∈ db.media, q.2.2 = r.id)

instance (db : DB) : Decidable (countInvariant db) := by
  unfold countInvariant; infer_instance

/-- The catalogue after ingesting one work (`"p.mp3"`, one posting). -/
def dbOnce : DB := (ingest dbEmpty "T" "movie" "p.mp3" none none [("h", 0)]).2

/-- The catalogue after ingesting the same file a second time. -/
def dbTwice : DB := (ingest dbOnce "T" "movie" "p.mp3" none none [("h", 0)]).2

/-! ## Matcher (`AudioMatcher.match_clip` / `_score_matches`)

`match_clip` is embedded with the index lookup abstracted as a function
`search : List String → List (Nat × String × Int)` standing for
`FingerprintDatabase.search_fingerprints` (its SQL result order is
engine-dependent, so the theorems quantify over it).  The
`get_media_info` lookup and the seconds/`MM:SS` display formatting of the
result are presentation fields not referenced by any claim and are omitted;
the returned record keeps the fields the claims speak about. -/

/-- `round(delta / 10) * 10`: CPython `round` applies round-half-to-even to
the `Float64` quotient; this is the exact half-to-even rounding of `δ/10`
(the two agree for `|δ| < 2^52`, far beyond any frame index), times 10. -/
def bucketOf (δ : Int) : Int :=
  let q := Int.fdiv δ 10
  let r := δ - 10 * q
  10 * (if r < 5 then q else if 5 < r then q + 1
        else if q % 2 = 0 then q else q + 1)

/-- `query_dict = {hash: t for hash, t in query_fingerprints}`: a dict
comprehension keeps the **last** binding of each repeated key. -/
def queryLookup (qf : List (String × Int)) (h : String) : Option Int :=
  (qf.reverse.find? (fun q => q.1 == h)).map (·.2)

/-- Append a delta to `media_matches[k]` (`defaultdict(list)`); dict keys
keep first-insertion order. -/
def upsertDelta (l : List (Nat × List Int)) (k : Nat) (d : Int) :
    List (Nat × List Int) :=
  if l.any (fun g => g.1 == k) then
    l.map (fun g => if g.1 == k then (g.1, g.2 ++ [d]) else g)
  else l ++ [(k, [d])]

/-- The grouping loop of `_score_matches`: for each database match whose
hash occurs in the query dict, append `db_time_offset - query_time_offset`
to that media's list. -/
def groupDeltas (qf : List (String × Int))
    (dbMatches : List (Nat × String × Int)) : List (Nat × List Int) :=
  dbMatches.foldl (fun acc m =>
    match queryLookup qf m.2.1 with
    | none => acc
    | some q => upsertDelta acc m.1 (m.2.2 - q)) []

/-- Increment `delta_counts[b]` (`defaultdict(int)`); keys keep
first-insertion order. -/
def bumpBucket (l : List (Int × Nat)) (b : Int) : List (Int × Nat) :=
  if l.any (fun c => c.1 == b) then
    l.map (fun c => if c.1 == b then (c.1, c.2 + 1) else c)
  else l ++ [(b, 1)]

/-- The per-media histogram: occurrences of each bucketed delta, keyed in
first-appearance order. -/
def bucketCounts (ds : List Int) : List (Int × Nat) :=
  ds.foldl (fun acc d => bumpBucket acc (bucketOf d)) []

/-- The left fold of Python's `max(xs, key=key)` with current maximum
`x`: a later element replaces the current one only when its key is
**strictly** greater. -/
def foldMax {α : Type} (key : α → Nat) (x : α) (l : List α) : α :=
  l.foldl (fun acc y => if key acc < key y then y else acc) x

/-- Python's `max(xs, key=key)`: traverse left to right keeping the current
maximum, replacing it only when a later element is strictly greater, so
the earliest element among those attaining the maximum wins; `none` on an
empty list (where CPython raises). -/
def pyMaxBy {α : Type} (key : α → Nat) : List α → Option α
  | [] => none
  | x :: xs => some (foldMax key x xs)

/-- One element of the `scores` list of `_score_matches`. -/
structure ScoreEntry where
  mediaId : Nat
  score : Nat
  timeOffset : Int
  totalDeltas : Nat
deriving DecidableEq

/-- The `scores` list before sorting: for each media (in first-appearance
order) the most common bucketed delta (`max(delta_counts,
key=delta_counts.get)`, earliest-inserted bucket on ties), its count as the
score, and the number of deltas.  Every group is created nonempty, so the
`none` fallback is unreachable. -/
def rawScores (qf : List (String × Int))
    (dbMatches : List (Nat × String × Int)) : List ScoreEntry :=
  (groupDeltas qf dbMatches).map (fun g =>
    match pyMaxBy (fun c => c.2) (bucketCounts g.2) with
    | some c => { mediaId := g.1, score := c.2, timeOffset := c.1,
                  totalDeltas := g.2.length }
    | none => { mediaId := g.1, score := 0, timeOffset := 0,
                totalDeltas := g.2.length })

/-- Stable descending insertion by score: an element moves past only
strictly smaller scores, so elements with equal scores keep their original
relative order — extensionally the `sorted(scores, key=score, reverse=True)`
of CPython, whose sort is stable. -/
def insertByScoreDesc (x : ScoreEntry) :
    List ScoreEntry → List ScoreEntry
  | [] => [x]
  | y :: ys => if y.score ≤ x.score then x :: y :: ys else y :: insertByScoreDesc x ys

/-- `sorted(scores, key=lambda x: x['score'], reverse=True)`. -/
def sortByScoreDesc (l : List ScoreEntry) : List ScoreEntry :=
  l.foldr insertByScoreDesc []

/-- `_score_matches`: group, histogram, and return the scores sorted by
descending score. -/
def scoreMatches (qf : List (String × Int))
    (dbMatches : List (Nat × String × Int)) : List ScoreEntry :=
  sortByScoreDesc (rawScores qf dbMatches)

/-- The fields of `match_clip`'s result dictionary that the claims refer
to (`media_id`, `confidence`, the best time offset in frames, and
`total_matches`). -/
structure MatchResult where
  mediaId : Nat
  confidence : Nat
  timeOffsetFrames : Int
  totalMatches : Nat
deriving DecidableEq

/-- `AudioMatcher.match_clip` (default `min_confidence = 5`): return `None`
when the query yields no fingerprints, when the index search returns no
matches, when scoring produces no entries, or when the best score
(`max(scores, key=score)`) is below `min_confidence`; otherwise return the
best match. -/
def matchClip (search : List String → List (Nat × String × Int))
    (queryFps : List (String × Int)) (minConfidence : Nat) :
    Option MatchResult :=
  if queryFps.isEmpty then none
  else
    let queryHashes := queryFps.map (·.1)
    let found := search queryHashes
    if found.isEmpty then none
    else
      let scores := scoreMatches queryFps found
      match pyMaxBy (fun e => e.score) scores with
      | none => none
      | some best =>
        if best.score < minConfidence then none
        else some { mediaId := best.mediaId, confidence := best.score,
                    timeOffsetFrames := best.timeOffset,
                    totalMatches := found.length }

/-- A query whose ten hashes hit two works five times each, every match at
the same aligned offset: works 1 and 2 tie at the maximum score 5. -/
def tieQuery : List (String × Int) :=
  [("a1", 0), ("a2", 0), ("a3", 0), ("a4", 0), ("a5", 0),
   ("b1", 0), ("b2", 0), ("b3", 0), ("b4", 0), ("b5", 0)]

/-- Index search results for `tieQuery`: work 2's postings come first in
the result list (SQLite returns rows in hash-index order, which need not
follow `work_id`). -/
def tieSearch : List String → List (Nat × String × Int) := fun _ =>
  [(2, "a1", 0), (2, "a2", 0), (2, "a3", 0), (2, "a4", 0), (2, "a5", 0),
   (1, "b1", 0), (1, "b2", 0), (1, "b3", 0), (1, "b4", 0), (1, "b5", 0)]

/-- The fingerprinting pipeline of `fingerprint_file` downstream of audio
decoding: spectrogram (the STFT is a fixed pure function of the samples,
abstracted as `stft`), peak extraction, hashing. -/
def fingerprintPipeline (H : String → String) (stft : List ℚ → Spectrogram)
    (samples : List ℚ) : List (String × Int) :=
  generateHashes H
    ((findPeaks (stft samples)).map (fun p => ((p.1 : Int), (p.2 : Int))))

/-! ## Theorems -/

/-- Key lemma for the hasher's fan-out: the source's inner-loop index range
`range(i + 1, min(i + m, n))` enumerates exactly the indices
`j < n` with `i < j < m` (here stated for a general upper bound `m`). -/
lemma range_filter_between (i m : Nat) :
    ∀ n, (List.range n).filter (fun j => decide (i < j) && decide (j < m)) =
      List.range' (i + 1) (min m n - (i + 1)) := by
  intro n
  induction n with
  | zero => simp
  | succ n ih =>
      rw [List.range_succ, List.filter_append, ih]
      by_cases h1 : i < n
      · by_cases h2 : n < m
        · have hmin : min m (n + 1) - (i + 1) = (min m n - (i + 1)) + 1 := by
            omega
          rw [hmin, List.range'_concat]
          have hn : i + 1 + 1 * (min m n - (i + 1)) = n := by omega
          rw [hn]
          simp [h1, h2]
        · have hmin : min m (n + 1) - (i + 1) = min m n - (i + 1) := by omega
          rw [hmin]
          simp [h2]
      · have hmin : min m (n + 1) - (i + 1) = min m n - (i + 1) := by omega
        rw [hmin]
        simp [h1]

lemma codeTargets_eq_amendedTargets : codeTargets = amendedTargets := by
  funext n i
  unfold codeTargets amendedTargets
  exact (range_filter_between i (i + fanValue) n).symm

/-- C3 (amended): for every time-sorted peak list and every anchor index
`i`, the hasher considers as targets exactly the peaks `p_j` with
`j ∈ (i, i + fan_value)` clipped to the end of the list — i.e. up to
`fan_value - 1 = 4` targets per anchor — emitting one posting per target
not stopped by the time window. -/
theorem generateHashes_fan_targets (H : String → String)
    (ps : List (Int × Int)) : generateHashes H ps = amendedHashes H ps := by
  unfold generateHashes amendedHashes anchorPairs
  rw [codeTargets_eq_amendedTargets]

/-- C3 counterexample: on six peaks at consecutive times the source emits
`4 + 4 + 3 + 2 + 1 = 14` postings, whereas the claimed target range
`j ∈ (i, i + fan_value]` would emit `5 + 4 + 3 + 2 + 1 = 15`. -/
theorem generateHashes_fan_cx :
    (generateHashes (fun s => s) sixPeaks).length = 14 ∧
    (claimHashes (fun s => s) sixPeaks).length = 15 ∧
    generateHashes (fun s => s) sixPeaks ≠ claimHashes (fun s => s) sixPeaks := by
  refine ⟨by decide, by decide, by decide⟩

/-- C9: fingerprinting is deterministic — on identical audio samples under
identical configuration (the same digest and STFT functions) the pipeline
produces the same multiset of `(hash, anchor_time)` postings. -/
theorem fingerprintPipeline_deterministic (H : String → String)
    (stft : List ℚ → Spectrogram) (y₁ y₂ : List ℚ) (h : y₁ = y₂) :
    (↑(fingerprintPipeline H stft y₁) : Multiset (String × Int)) =
      ↑(fingerprintPipeline H stft y₂) := by
  subst h; rfl

theorem fingerprintPipeline_deterministic_witness :
    ([] : List ℚ) = ([] : List ℚ) ∧
    (↑(fingerprintPipeline (fun s => s) (fun _ => [[20, 15, 0]]) []) :
        Multiset (String × Int)) =
      ↑(fingerprintPipeline (fun s => s) (fun _ => [[20, 15, 0]]) []) :=
  ⟨rfl, fingerprintPipeline_deterministic (fun s => s)
    (fun _ => [[20, 15, 0]]) [] [] rfl⟩

/-- C10: a query with no fingerprints makes `match_clip` return `None`
before the index is consulted, and the index search is never invoked with
an empty hash list: the result is unchanged if the search function is
replaced by anything at all on empty input (so `search_fingerprints`, whose
`IN (...)` clause is malformed for an empty list, is only reached with a
non-empty hash list). -/
theorem matchClip_empty_query
    (search junk : List String → List (Nat × String × Int)) (mc : Nat)
    (qf : List (String × Int)) :
    matchClip search [] mc = none ∧
    matchClip search qf mc =
      matchClip (fun hs => if hs.isEmpty then junk hs else search hs) qf mc := by
  constructor
  · rfl
  · cases qf with
    | nil => rfl
    | cons x t => rfl

/-- C1 counterexample: re-ingesting `"p.mp3"` into a catalogue that already
contains it returns the existing id 1 but does **not** leave the postings
table unchanged — `build_database` re-runs `add_fingerprints`, appending a
duplicate copy of every posting. -/
theorem ingest_duplicate_cx :
    (ingest dbOnce "T" "movie" "p.mp3" none none [("h", 0)]).1 = 1 ∧
    (ingest dbOnce "T" "movie" "p.mp3" none none [("h", 0)]).2.fingerprints ≠
      dbOnce.fingerprints := by
  refine ⟨by decide, by decide⟩

/-- C1 (amended): ingesting a work whose `source_path` already exists
returns the pre-existing `work_id`, but `build_database` then re-inserts the
whole posting batch (appending duplicates keyed by that id) and overwrites
the work's `posting_count` with the new batch's length (so the cached count
is unchanged in value only because re-fingerprinting the same file yields a
batch of the same size). -/
theorem ingest_existing_path (db : DB) (t k p : String) (s e : Option Nat)
    (fps : List (String × Int)) (r : MediaRow)
    (hfind : db.media.find? (fun row => row.filePath == p) = some r) :
    (ingest db t k p s e fps).1 = r.id ∧
    (ingest db t k p s e fps).2.fingerprints =
      db.fingerprints ++ fps.map (fun q => (q.1, q.2, r.id)) ∧
    (ingest db t k p s e fps).2.media =
      db.media.map (fun row =>
        if row.id = r.id then { row with fingerprintCount := fps.length }
        else row) := by
  simp only [ingest, addMedia, hfind, addFingerprints]
  exact ⟨trivial, trivial, trivial⟩

theorem ingest_existing_path_witness :
    dbOnce.media.find? (fun row => row.filePath == "p.mp3") =
      some { id := 1, title := "T", mtype := "movie", season := none,
             episode := none, filePath := "p.mp3", fingerprintCount := 1 } ∧
    ((ingest dbOnce "T" "movie" "p.mp3" none none [("h", 0)]).1 =
        ({ id := 1, title := "T", mtype := "movie", season := none,
           episode := none, filePath := "p.mp3",
           fingerprintCount := 1 } : MediaRow).id ∧
      (ingest dbOnce "T" "movie" "p.mp3" none none [("h", 0)]).2.fingerprints =
        dbOnce.fingerprints ++ [("h", 0)].map (fun q => (q.1, q.2, (1 : Nat))) ∧
      (ingest dbOnce "T" "movie" "p.mp3" none none [("h", 0)]).2.media =
        dbOnce.media.map (fun row =>
          if row.id = 1 then { row with fingerprintCount := 1 } else row)) :=
  ⟨by decide, ingest_existing_path dbOnce "T" "movie" "p.mp3" none none
    [("h", 0)] _ (by decide)⟩

/-- C2 counterexample: after the ingest sequence `dbEmpty → dbOnce →
dbTwice` (the same file ingested twice), work 1's cached `posting_count`
is 1 while the postings table holds 2 rows with its id — the invariant
fails after this sequence of ingest operations. -/
theorem posting_count_cx :
    dbTwice = (ingest dbOnce "T" "movie" "p.mp3" none none [("h", 0)]).2 ∧
    ¬ countInvariant dbTwice := by
  refine ⟨rfl, by decide⟩

/-- C2 (amended): the posting-count invariant holds after every sequence of
ingest operations whose `source_path`s are pairwise distinct: ingesting a
path not yet in the catalogue preserves both well-formedness and
`posting_count(work) = |{postings with that work_id}|` for every work. -/
theorem countInvariant_preserved_fresh (db : DB) (t k p : String)
    (s e : Option Nat) (fps : List (String × Int))
    (hwf : wellFormed db) (hinv : countInvariant db)
    (hfresh : ∀ r ∈ db.media, r.filePath ≠ p) :
    countInvariant (ingest db t k p s e fps).2 ∧
    wellFormed (ingest db t k p s e fps).2 := by
  have hfind : db.media.find? (fun row => row.filePath == p) = none := by
    rw [List.find?_eq_none]
    intro r hr
    simpa using hfresh r hr
  have hnotnew : ∀ q ∈ db.fingerprints, q.2.2 ≠ db.nextId := by
    intro q hq
    obtain ⟨r, hr, hqr⟩ := hwf.2 q hq
    have := hwf.1 r hr
    omega
  simp only [ingest, addMedia, hfind, addFingerprints]
  refine ⟨?_, ?_, ?_⟩
  · -- the posting-count invariant on the new state
    intro r' hr'
    simp only [List.mem_map, List.mem_append, List.mem_singleton] at hr'
    obtain ⟨r0, hr0, rfl⟩ := hr'
    rcases hr0 with hr0 | rfl
    · have hlt : r0.id < db.nextId := hwf.1 r0 hr0
      have hne : ¬ r0.id = db.nextId := by omega
      have hz : (fps.map (fun q => (q.1, q.2, db.nextId))).filter
          (fun q : String × Int × Nat => q.2.2 == r0.id) = [] := by
        rw [List.filter_eq_nil_iff]
        intro a ha
        obtain ⟨q0, hq0, rfl⟩ := List.mem_map.mp ha
        simp only [beq_iff_eq]
        exact fun h => hne h.symm
      have hcount := hinv r0 hr0
      simp only [postingRows] at hcount
      simp only [hne, if_false, postingRows, List.filter_append,
        List.length_append, hz, List.length_nil, Nat.add_zero]
      exact hcount
    · have hz1 : db.fingerprints.filter
          (fun q : String × Int × Nat => q.2.2 == db.nextId) = [] := by
        rw [List.filter_eq_nil_iff]
        intro q hq
        simpa using hnotnew q hq
      have hall : (fps.map (fun q => (q.1, q.2, db.nextId))).filter
          (fun q : String × Int × Nat => q.2.2 == db.nextId) =
          fps.map (fun q => (q.1, q.2, db.nextId)) := by
        rw [List.filter_eq_self]
        intro a ha
        obtain ⟨q0, hq0, rfl⟩ := List.mem_map.mp ha
        simp
      simp [postingRows, List.filter_append, hz1, hall]
  · -- all media ids stay below the new autoincrement value
    intro r' hr'
    simp only [List.mem_map, List.mem_append, List.mem_singleton] at hr'
    obtain ⟨r0, hr0, rfl⟩ := hr'
    rcases hr0 with hr0 | rfl
    · have := hwf.1 r0 hr0
      by_cases hid : r0.id = db.nextId
      · simp [hid]
      · simp [hid]
        omega
    · simp
  · -- every posting row references an existing media row
    intro q hq
    simp only [List.mem_append, List.mem_map] at hq
    rcases hq with hq | ⟨q0, hq0, rfl⟩
    · obtain ⟨r, hr, hqr⟩ := hwf.2 q hq
      have hlt : r.id < db.nextId := hwf.1 r hr
      have hne : ¬ r.id = db.nextId := by omega
      refine ⟨r, ?_, hqr⟩
      simp only [List.mem_map, List.mem_append, List.mem_singleton]
      exact ⟨r, Or.inl hr, by simp [hne]⟩
    · refine ⟨(⟨db.nextId, t, k, s, e, p, fps.length⟩ : MediaRow), ?_, rfl⟩
      simp only [List.mem_map, List.mem_append, List.mem_singleton]
      exact ⟨(⟨db.nextId, t, k, s, e, p, 0⟩ : MediaRow), Or.inr rfl, by simp⟩

/-- Fusing the source's staging (`np.where` then boolean indexing then an
amplitude mask) into a single filter. -/
lemma zip_map_filter {α β : Type} (l : List α) (v : α → β) (q : β → Bool) :
    ((l.zip (l.map v)).filter (fun ca => q ca.2)).map (fun ca => ca.1) =
      l.filter (fun a => q (v a)) := by
  induction l with
  | nil => rfl
  | cons a t ih =>
      by_cases h : q (v a) <;> simp [h, ih]

lemma findPeaks_eq_xorDescription (M : Spectrogram) :
    findPeaks M = findPeaksXorDescription M := by
  simp only [findPeaks, findPeaksXorDescription]
  rw [zip_map_filter
      ((rowMajorCells (nFreqs M) (nFrames M)).filter
        (fun c => detected M c.1 c.2))
      (fun c => cell M c.1 c.2) (fun x => decide (minAmplitude < x)),
    List.filter_filter]
  exact List.filter_congr (fun c _ => Bool.and_comm _ _)

/-- C4 (amended): `find_peaks` reports `(f, t)` iff `M[f, t] >
min_amplitude = 10` and **exactly one** of the two mask conditions holds —
`(f, t)` attains the maximum of `M` over the (reflected) diamond footprint
of radius 20, or some in-bounds footprint cell of `M` is exactly zero —
because the source combines the two masks with `!=` (XOR), not with
"and not". -/
theorem findPeaks_detection_rule (M : Spectrogram) :
    findPeaks M = findPeaksXorDescription M :=
  findPeaks_eq_xorDescription M

/-- C4 counterexample: on `M = [[20, 15, 0]]` the cell `(0, 1)` (value 15)
is *not* a local maximum (its neighbour holds 20), yet the source reports
it — `15 > 10` and the zero at `(0, 2)` makes `eroded_background` true
while `local_max` is false, so the XOR fires.  The claim's rule reports
nothing on this spectrogram (the true local maximum `(0, 0)` is matched by
the zero-mask run, which the claim excludes). -/
theorem findPeaks_detection_rule_cx :
    findPeaks [[20, 15, 0]] = [(0, 1)] ∧
    findPeaksSpecDescription [[20, 15, 0]] = [] ∧
    findPeaks [[20, 15, 0]] ≠ findPeaksSpecDescription [[20, 15, 0]] := by
  have h1 : findPeaks [[20, 15, 0]] = [(0, 1)] := by decide
  have h2 : findPeaksSpecDescription [[20, 15, 0]] = [] := by decide
  refine ⟨h1, h2, ?_⟩
  rw [h1, h2]
  simp

/-- Cells of a row-major grid traversal are pairwise increasing in the
lexicographic order on `(row, column)`. -/
lemma flatMap_rowPairs_pairwise (T : Nat) :
    ∀ L : List Nat, L.Pairwise (· < ·) →
      (L.flatMap (fun f => (List.range T).map (fun t => (f, t)))).Pairwise
        (fun a b : Nat × Nat => a.1 < b.1 ∨ (a.1 = b.1 ∧ a.2 < b.2)) := by
  intro L
  induction L with
  | nil => simp
  | cons f L ih =>
      intro h
      obtain ⟨hf, hL⟩ := List.pairwise_cons.mp h
      rw [List.flatMap_cons, List.pairwise_append]
      refine ⟨?_, ih hL, ?_⟩
      · rw [List.pairwise_map]
        exact (List.pairwise_lt_range T).imp (fun hab => Or.inr ⟨rfl, hab⟩)
      · intro a ha b hb
        obtain ⟨ta, _, rfl⟩ := List.mem_map.mp ha
        obtain ⟨f', hf', hb'⟩ := List.mem_flatMap.mp hb
        obtain ⟨tb, _, rfl⟩ := List.mem_map.mp hb'
        exact Or.inl (hf f' hf')

lemma rowMajorCells_pairwise (F T : Nat) :
    (rowMajorCells F T).Pairwise
      (fun a b : Nat × Nat => a.1 < b.1 ∨ (a.1 = b.1 ∧ a.2 < b.2)) :=
  flatMap_rowPairs_pairwise T (List.range F) (List.pairwise_lt_range F)

/-- C6 (amended): `find_peaks` returns peaks in `np.where`'s row-major
order — strictly increasing lexicographically in `(freq_bin, frame_index)`,
not sorted by `frame_index`; the hasher does not rely on the order because
`generate_hashes` re-sorts the peaks by time itself. -/
theorem findPeaks_rowMajor_order (M : Spectrogram) :
    (findPeaks M).Pairwise
      (fun a b : Nat × Nat => a.1 < b.1 ∨ (a.1 = b.1 ∧ a.2 < b.2)) := by
  rw [findPeaks_eq_xorDescription]
  unfold findPeaksXorDescription
  exact (rowMajorCells_pairwise _ _).filter _

/-- C6 counterexample: on `M = [[11, 12], [12, 11]]` the two reported peaks
come out as `[(0, 1), (1, 0)]` — frame indices `1, 0`, not ascending. -/
theorem findPeaks_not_time_sorted_cx :
    findPeaks [[11, 12], [12, 11]] = [(0, 1), (1, 0)] ∧
    ¬ (findPeaks [[11, 12], [12, 11]]).Pairwise
        (fun a b : Nat × Nat => a.2 ≤ b.2) := by
  have h1 : findPeaks [[11, 12], [12, 11]] = [(0, 1), (1, 0)] := by decide
  refine ⟨h1, ?_⟩
  rw [h1]
  intro h
  have := (List.pairwise_cons.mp h).1 (1, 0) (by simp)
  omega

lemma mem_insertByTime (x a : Int × Int) :
    ∀ l, a ∈ insertByTime x l ↔ a = x ∨ a ∈ l := by
  intro l
  induction l with
  | nil => simp [insertByTime]
  | cons y ys ih =>
      by_cases h : x.2 ≤ y.2
      · simp [insertByTime, h]
      · simp only [insertByTime, if_neg h, List.mem_cons, ih]
        tauto

lemma insertByTime_sorted (x : Int × Int) :
    ∀ l, l.Pairwise (fun a b : Int × Int => a.2 ≤ b.2) →
      (insertByTime x l).Pairwise (fun a b : Int × Int => a.2 ≤ b.2) := by
  intro l
  induction l with
  | nil => intro _; simp [insertByTime]
  | cons y ys ih =>
      intro h
      obtain ⟨hy, hys⟩ := List.pairwise_cons.mp h
      by_cases hxy : x.2 ≤ y.2
      · rw [insertByTime, if_pos hxy]
        refine List.pairwise_cons.mpr ⟨?_, h⟩
        intro b hb
        rcases List.mem_cons.mp hb with rfl | hb
        · exact hxy
        · exact le_trans hxy (hy b hb)
      · rw [insertByTime, if_neg hxy]
        refine List.pairwise_cons.mpr ⟨?_, ih hys⟩
        intro b hb
        rcases (mem_insertByTime x b ys).mp hb with rfl | hb
        · omega
        · exact hy b hb

lemma sortByTime_sorted (ps : List (Int × Int)) :
    (sortByTime ps).Pairwise (fun a b : Int × Int => a.2 ≤ b.2) := by
  unfold sortByTime
  induction ps with
  | nil => simp
  | cons x l ih => exact insertByTime_sorted x _ ih

/-- Every anchor/target pair emitted by the hasher pairs an earlier (or
equal) time with a later one and lies within the time window. -/
lemma anchorPairs_delta_bounds (ps : List (Int × Int)) :
    ∀ ap ∈ anchorPairs ps,
      0 ≤ ap.2.2 - ap.1.2 ∧ ap.2.2 - ap.1.2 ≤ timeWindow := by
  intro ap hap
  unfold anchorPairs pairsWithTargets at hap
  simp only [List.mem_flatMap, List.mem_map] at hap
  obtain ⟨i, hi, pt, hpt, rfl⟩ := hap
  have hpred := List.mem_takeWhile_imp hpt
  have hmem := (List.takeWhile_sublist _).subset hpt
  simp only [List.mem_map] at hmem
  obtain ⟨j, hj, rfl⟩ := hmem
  unfold codeTargets at hj
  rw [List.mem_range'] at hj
  obtain ⟨m, hm, rfl⟩ := hj
  rw [List.mem_range] at hi
  dsimp only
  refine ⟨?_, by simpa using hpred⟩
  have hjn : i + 1 + 1 * m < (sortByTime ps).length := by omega
  have hin : i < (sortByTime ps).length := hi
  have hs := sortByTime_sorted ps
  rw [List.pairwise_iff_get] at hs
  have hrel := hs ⟨i, hin⟩ ⟨i + 1 + 1 * m, hjn⟩ (by simp; omega)
  simp only [List.get_eq_getElem] at hrel
  rw [List.getD_eq_getElem _ _ hin, List.getD_eq_getElem _ _ hjn]
  omega

/-- C8: every posting emitted by the hasher comes from an anchor/target
pair with `0 ≤ Δt ≤ time_window = 200`: the anchor's time never exceeds the
target's (peaks are paired in time-sorted order) and the inner traversal
stops at the first target beyond the window. -/
theorem generateHashes_delta_bounds (H : String → String)
    (ps : List (Int × Int)) (q : String × Int)
    (hq : q ∈ generateHashes H ps) :
    ∃ ap ∈ anchorPairs ps,
      q = (H (hashString ap.1.1 ap.2.1 (ap.2.2 - ap.1.2)), ap.1.2) ∧
      0 ≤ ap.2.2 - ap.1.2 ∧ ap.2.2 - ap.1.2 ≤ timeWindow := by
  unfold generateHashes at hq
  simp only [List.mem_map] at hq
  obtain ⟨ap, hap, rfl⟩ := hq
  exact ⟨ap, hap, rfl, anchorPairs_delta_bounds ps ap hap⟩

theorem generateHashes_delta_bounds_witness :
    ("0|1|1", (0 : Int)) ∈ generateHashes (fun s => s) [(0, 0), (1, 1)] ∧
    ∃ ap ∈ anchorPairs [(0, 0), (1, 1)],
      ("0|1|1", (0 : Int)) =
        (hashString ap.1.1 ap.2.1 (ap.2.2 - ap.1.2), ap.1.2) ∧
      0 ≤ ap.2.2 - ap.1.2 ∧ ap.2.2 - ap.1.2 ≤ timeWindow :=
  ⟨by decide, generateHashes_delta_bounds (fun s => s) [(0, 0), (1, 1)]
    ("0|1|1", 0) (by decide)⟩

theorem countInvariant_preserved_fresh_witness :
    wellFormed dbEmpty ∧ countInvariant dbEmpty ∧
    (∀ r ∈ dbEmpty.media, r.filePath ≠ "p.mp3") ∧
    (countInvariant (ingest dbEmpty "T" "movie" "p.mp3" none none
        [("h", 0)]).2 ∧
      wellFormed (ingest dbEmpty "T" "movie" "p.mp3" none none
        [("h", 0)]).2) :=
  ⟨⟨by simp [dbEmpty], by simp [dbEmpty]⟩, by simp [countInvariant, dbEmpty],
    by simp [dbEmpty],
    countInvariant_preserved_fresh dbEmpty "T" "movie" "p.mp3" none none
      [("h", 0)] ⟨by simp [dbEmpty], by simp [dbEmpty]⟩
      (by simp [countInvariant, dbEmpty]) (by simp [dbEmpty])⟩

lemma foldMax_cons {α : Type} (key : α → Nat) :
    ∀ (t : List α) (c x : α),
      foldMax key x (c :: t) =
        if key x < key (foldMax key c t) then foldMax key c t else x := by
  intro t
  induction t with
  | nil =>
      intro c x
      simp [foldMax]
  | cons d t ih =>
      intro c x
      have hL : foldMax key x (c :: d :: t) =
          foldMax key (if key x < key c then c else x) (d :: t) := rfl
      rw [hL]
      by_cases h1 : key x < key c
      · rw [if_pos h1]
        simp only [ih]
        split_ifs <;> first | rfl | omega
      · rw [if_neg h1]
        simp only [ih]
        split_ifs <;> first | rfl | omega

lemma foldMax_mem {α : Type} (key : α → Nat) :
    ∀ (l : List α) (x : α), foldMax key x l ∈ x :: l := by
  intro l
  induction l with
  | nil => intro x; simp [foldMax]
  | cons c t ih =>
      intro x
      have hL : foldMax key x (c :: t) =
          foldMax key (if key x < key c then c else x) t := rfl
      rw [hL]
      rcases List.mem_cons.mp (ih (if key x < key c then c else x)) with heq | hmem
      · rw [heq]
        by_cases h1 : key x < key c <;> simp [h1]
      · exact List.mem_cons_of_mem _ (List.mem_cons_of_mem _ hmem)

lemma foldMax_le {α : Type} (key : α → Nat) :
    ∀ (l : List α) (x y : α), y ∈ x :: l → key y ≤ key (foldMax key x l) := by
  intro l
  induction l with
  | nil =>
      intro x y hy
      rcases List.mem_cons.mp hy with rfl | hnil
      · simp [foldMax]
      · exact absurd hnil (List.not_mem_nil y)
  | cons c t ih =>
      intro x y hy
      have hL : foldMax key x (c :: t) =
          foldMax key (if key x < key c then c else x) t := rfl
      rw [hL]
      have hx : key x ≤ key (if key x < key c then c else x) := by
        by_cases h1 : key x < key c <;> simp [h1] <;> omega
      have hc : key c ≤ key (if key x < key c then c else x) := by
        by_cases h1 : key x < key c <;> simp [h1] <;> omega
      have hself : key (if key x < key c then c else x) ≤
          key (foldMax key (if key x < key c then c else x) t) :=
        ih _ _ (List.mem_cons_self _ _)
      rcases List.mem_cons.mp hy with rfl | hy'
      · exact le_trans hx hself
      rcases List.mem_cons.mp hy' with rfl | hy''
      · exact le_trans hc hself
      · exact ih _ y (List.mem_cons_of_mem _ hy'')

lemma pyMaxBy_mem {α : Type} (key : α → Nat) (l : List α) (b : α)
    (h : pyMaxBy key l = some b) : b ∈ l := by
  cases l with
  | nil => cases h
  | cons x t =>
      have hb : foldMax key x t = b := by simpa [pyMaxBy] using h
      rw [← hb]
      exact foldMax_mem key t x

lemma pyMaxBy_le {α : Type} (key : α → Nat) (l : List α) (b : α)
    (h : pyMaxBy key l = some b) : ∀ y ∈ l, key y ≤ key b := by
  cases l with
  | nil => intro y hy; exact absurd hy (List.not_mem_nil y)
  | cons x t =>
      intro y hy
      have hb : foldMax key x t = b := by simpa [pyMaxBy] using h
      rw [← hb]
      exact foldMax_le key t x y hy

lemma pyMaxBy_cons_congr {α : Type} (key : α → Nat) (x : α)
    (l₁ l₂ : List α) (h : pyMaxBy key l₁ = pyMaxBy key l₂) :
    pyMaxBy key (x :: l₁) = pyMaxBy key (x :: l₂) := by
  cases l₁ with
  | nil =>
      cases l₂ with
      | nil => rfl
      | cons c₂ t₂ => simp [pyMaxBy] at h
  | cons c₁ t₁ =>
      cases l₂ with
      | nil => simp [pyMaxBy] at h
      | cons c₂ t₂ =>
          have heq : foldMax key c₁ t₁ = foldMax key c₂ t₂ := by
            simpa [pyMaxBy] using h
          show some (foldMax key x (c₁ :: t₁)) = some (foldMax key x (c₂ :: t₂))
          rw [foldMax_cons, foldMax_cons, heq]

lemma pyMaxBy_swap_of_lt {α : Type} (key : α → Nat) (x y : α)
    (l : List α) (h : key x < key y) :
    pyMaxBy key (y :: x :: l) = pyMaxBy key (x :: y :: l) := by
  show some (foldMax key (if key y < key x then x else y) l) =
    some (foldMax key (if key x < key y then y else x) l)
  rw [if_neg (by omega), if_pos h]

/-- Python's `max` over the stably-sorted scores equals `max` over the
unsorted scores: sorting moves an element past only strictly smaller
scores, so the earliest maximal element still wins. -/
lemma pyMaxBy_insertByScoreDesc (x : ScoreEntry) :
    ∀ l, pyMaxBy (fun e => e.score) (insertByScoreDesc x l) =
      pyMaxBy (fun e => e.score) (x :: l) := by
  intro l
  induction l with
  | nil => rfl
  | cons y ys ih =>
      by_cases h : y.score ≤ x.score
      · rw [insertByScoreDesc, if_pos h]
      · rw [insertByScoreDesc, if_neg h]
        calc pyMaxBy (fun e => e.score) (y :: insertByScoreDesc x ys)
            = pyMaxBy (fun e => e.score) (y :: x :: ys) :=
              pyMaxBy_cons_congr _ y _ _ ih
          _ = pyMaxBy (fun e => e.score) (x :: y :: ys) :=
              pyMaxBy_swap_of_lt _ x y ys (by omega)

lemma pyMaxBy_sortByScoreDesc (l : List ScoreEntry) :
    pyMaxBy (fun e => e.score) (sortByScoreDesc l) =
      pyMaxBy (fun e => e.score) l := by
  induction l with
  | nil => rfl
  | cons x t ih =>
      have hs : sortByScoreDesc (x :: t) =
          insertByScoreDesc x (sortByScoreDesc t) := rfl
      rw [hs, pyMaxBy_insertByScoreDesc]
      exact pyMaxBy_cons_congr _ x _ _ ih

/-- C5 (amended): when `match_clip` returns a result, it is the score
entry that Python's `max` selects from the *unsorted* per-work scores list
(whose order is the first-appearance order of works in the database search
results): it attains the maximum score, and on ties the work whose first
matching posting appears earliest in the search results wins — not
necessarily the one with the lower `work_id`. -/
theorem matchClip_tie_first_appearance
    (search : List String → List (Nat × String × Int))
    (qf : List (String × Int)) (mc : Nat) (r : MatchResult)
    (h : matchClip search qf mc = some r) :
    ∃ e, pyMaxBy (fun x => x.score)
        (rawScores qf (search (qf.map (·.1)))) = some e ∧
      r.mediaId = e.mediaId ∧ r.confidence = e.score ∧
      r.timeOffsetFrames = e.timeOffset ∧
      ∀ x ∈ rawScores qf (search (qf.map (·.1))), x.score ≤ e.score := by
  simp only [matchClip] at h
  split at h
  · simp at h
  split at h
  · simp at h
  split at h
  · simp at h
  next best heq =>
    split at h
    · simp at h
    injection h with h'
    subst h'
    have hraw : pyMaxBy (fun e => e.score)
        (rawScores qf (search (qf.map (·.1)))) = some best := by
      have hs := heq
      simp only [scoreMatches] at hs
      rw [pyMaxBy_sortByScoreDesc] at hs
      exact hs
    exact ⟨best, hraw, rfl, rfl, rfl, pyMaxBy_le _ _ _ hraw⟩

theorem matchClip_tie_first_appearance_witness :
    matchClip tieSearch tieQuery 5 =
      some { mediaId := 2, confidence := 5, timeOffsetFrames := 0,
             totalMatches := 10 } ∧
    (∃ e, pyMaxBy (fun x => x.score)
        (rawScores tieQuery (tieSearch (tieQuery.map (·.1)))) = some e ∧
      ({ mediaId := 2, confidence := 5, timeOffsetFrames := 0,
         totalMatches := 10 } : MatchResult).mediaId = e.mediaId ∧
      ({ mediaId := 2, confidence := 5, timeOffsetFrames := 0,
         totalMatches := 10 } : MatchResult).confidence = e.score ∧
      ({ mediaId := 2, confidence := 5, timeOffsetFrames := 0,
         totalMatches := 10 } : MatchResult).timeOffsetFrames = e.timeOffset ∧
      ∀ x ∈ rawScores tieQuery (tieSearch (tieQuery.map (·.1))),
        x.score ≤ e.score) :=
  ⟨by decide, matchClip_tie_first_appearance tieSearch tieQuery 5 _ (by decide)⟩

/-- C5 counterexample: works 1 and 2 tie at the maximum score 5, work 2's
postings come first in the search results, and `match_clip` returns work 2
— not the tied work with the lower `work_id`. -/
theorem matchClip_tie_cx :
    rawScores tieQuery (tieSearch (tieQuery.map (·.1))) =
      [{ mediaId := 2, score := 5, timeOffset := 0, totalDeltas := 5 },
       { mediaId := 1, score := 5, timeOffset := 0, totalDeltas := 5 }] ∧
    matchClip tieSearch tieQuery 5 =
      some { mediaId := 2, confidence := 5, timeOffsetFrames := 0,
             totalMatches := 10 } := by
  refine ⟨by decide, by decide⟩

/-- C7: when every per-work histogram score is below `min_confidence` (so
in particular when the best score is), `match_clip` returns `None` rather
than a result. -/
theorem matchClip_below_threshold
    (search : List String → List (Nat × String × Int))
    (qf : List (String × Int)) (mc : Nat)
    (h : ∀ e ∈ scoreMatches qf (search (qf.map (·.1))), e.score < mc) :
    matchClip search qf mc = none := by
  simp only [matchClip]
  split
  · rfl
  split
  · rfl
  cases hm : pyMaxBy (fun e => e.score)
      (scoreMatches qf (search (qf.map (·.1)))) with
  | none => rfl
  | some best =>
      have hbest := h best (pyMaxBy_mem _ _ _ hm)
      simp [hbest]

theorem matchClip_below_threshold_witness :
    (∀ e ∈ scoreMatches [(("a" : String), (0 : Int))]
        ((fun _ => [((1 : Nat), ("a" : String), (0 : Int))])
          ([(("a" : String), (0 : Int))].map (·.1))), e.score < 5) ∧
    matchClip (fun _ => [((1 : Nat), ("a" : String), (0 : Int))])
      [(("a" : String), (0 : Int))] 5 = none :=
  ⟨by decide, matchClip_below_threshold
    (fun _ => [((1 : Nat), ("a" : String), (0 : Int))])
    [(("a" : String), (0 : Int))] 5 (by decide)⟩
